import Mathlib

/-!
Verification of the intent-matching engine of the HUMONGOUS-AI repository
(`nlp_engine.py`), shallowly embedded in Lean 4.

The engine normalizes a user message into a set of tokens (via an external
NLP capability), scores it against every intent of a catalog using Jaccard
similarity of token sets, and returns the best intent when the best score
clears a 0.25 threshold, otherwise the catalog's fallback intent.  Scores
are modelled as exact rationals; the normalization capability (spaCy) is an
abstract function `String → Finset String`, optional because the engine may
fail to load it.  Randomness in response selection is modelled by an
explicit index argument.
-/

namespace HumongousAI

/-- The token-normalization capability: lower-casing, lemmatizing and
stop-word removal are performed by an external NLP library, abstracted as a
function from text to a set of tokens (source: `NlpEngine._preprocess_text`,
body of the set comprehension). -/
abbrev NormFn := String → Finset String

/-- A catalog entry: `tag`, example `patterns`, candidate `responses`
(source: the dictionaries of `intents.json` consumed by `nlp_engine.py`). -/
structure Intent where
  tag : String
  patterns : List String
  responses : List String
deriving DecidableEq

/-- `NlpEngine._preprocess_text`: if the NLP capability is unavailable
(`self.nlp` is `None`) the result is the empty set, otherwise the
capability's token set for the text. -/
def preprocess (nlp : Option NormFn) (text : String) : Finset String :=
  match nlp with
  | none => ∅
  | some f => f text

/-- One iteration of the inner pattern loop of `NlpEngine.get_intent`:
normalize the pattern; skip it when its token set is empty; otherwise
compute `intersection / union` (with `0.0` guard on an empty union) and
keep the running maximum under strict `>`. -/
def patternStep (nlp : Option NormFn) (user : Finset String) (acc : ℚ)
    (pattern : String) : ℚ :=
  let pk := preprocess nlp pattern
  if pk = ∅ then acc
  else
    let inter : ℚ := ((user ∩ pk).card : ℚ)
    let uni : ℚ := ((user ∪ pk).card : ℚ)
    let score := if uni > 0 then inter / uni else 0
    if score > acc then score else acc

/-- The per-intent score of `NlpEngine.get_intent`: the inner loop folded
over the intent's patterns starting from `0.0` (`max_pattern_score`). -/
def intentScore (nlp : Option NormFn) (user : Finset String)
    (intent : Intent) : ℚ :=
  intent.patterns.foldl (patternStep nlp user) 0

/-- One iteration of the outer intent loop of `NlpEngine.get_intent`: the
running best `(best_match_score, best_match_intent)` is replaced only when
the intent's score is strictly greater. -/
def bestStep (nlp : Option NormFn) (user : Finset String)
    (best : ℚ × Option Intent) (intent : Intent) : ℚ × Option Intent :=
  let s := intentScore nlp user intent
  if s > best.1 then (s, some intent) else best

/-- The outer loop of `NlpEngine.get_intent` over the whole catalog,
starting from `(0.0, None)`. -/
def bestMatch (nlp : Option NormFn) (user : Finset String)
    (intents : List Intent) : ℚ × Option Intent :=
  intents.foldl (bestStep nlp user) (0, none)

/-- The fixed confidence threshold `CONFIDENCE_THRESHOLD = 0.25` of
`NlpEngine.get_intent`. -/
def CONFIDENCE_THRESHOLD : ℚ := 1/4

/-- `next((i for i in self.intents if i['tag'] == 'fallback'), None)`:
the first catalog intent tagged `fallback`, if any. -/
def findFallback (intents : List Intent) : Option Intent :=
  intents.find? (fun i => i.tag == "fallback")

/-- `NlpEngine.get_intent`.  Returns `none` on an empty catalog; routes an
empty user token set to the fallback lookup; otherwise scores every intent
and compares the best score against the threshold (inclusive `>=`). -/
def get_intent (nlp : Option NormFn) (intents : List Intent)
    (user_message : String) : Option Intent :=
  if intents = [] then none
  else
    let user_keywords := preprocess nlp user_message
    if user_keywords = ∅ then findFallback intents
    else
      let best := bestMatch nlp user_keywords intents
      if best.1 ≥ CONFIDENCE_THRESHOLD then best.2
      else findFallback intents

/-- The hard-coded apology returned by `NlpEngine.get_response` when the
intent is absent or has no responses. -/
def apologyMessage : String := "I'm sorry, I'm having trouble understanding right now."

/-- `NlpEngine.get_response`, with `random.choice` modelled by an explicit
choice index reduced modulo the length of the response list. -/
def get_response (intent : Option Intent) (choice : Nat) : String :=
  match intent with
  | none => apologyMessage
  | some i =>
    if i.responses = [] then apologyMessage
    else i.responses.getD (choice % i.responses.length) ""

/-- The engine state built by `NlpEngine.__init__`: the optional NLP
capability and the intent catalog. -/
structure EngineState where
  nlp : Option NormFn
  intents : List Intent

/-- `NlpEngine.__init__`: loading the spaCy model and the intents file may
each fail; the `try`/`except` block catches any failure and resets the
state to `self.nlp = None; self.intents = []`, never re-raising. -/
def initEngine (loadNlp : Except String NormFn)
    (loadIntents : Except String (List Intent)) : EngineState :=
  match loadNlp, loadIntents with
  | .ok n, .ok is => { nlp := some n, intents := is }
  | .ok _, .error _ => { nlp := none, intents := [] }
  | .error _, _ => { nlp := none, intents := [] }

/-- `NlpEngine.get_intent` as a state transformer: the method reads
`self.nlp` and `self.intents` and assigns to neither. -/
def get_intent_s (s : EngineState) (msg : String) :
    Option Intent × EngineState :=
  (get_intent s.nlp s.intents msg, s)

/-- `NlpEngine.get_response` as a state transformer: the method reads no
engine field and assigns to none. -/
def get_response_s (s : EngineState) (intent : Option Intent)
    (choice : Nat) : String × EngineState :=
  (get_response intent choice, s)

/-- Jaccard similarity of two token sets as the spec words it:
`|intersection| / |union|`, taken as `0.0` when the union is empty. -/
def jaccard (a b : Finset String) : ℚ :=
  if a ∪ b = ∅ then 0
  else ((a ∩ b).card : ℚ) / ((a ∪ b).card : ℚ)

/-- The spec's per-intent score: the maximum, over the intent's patterns,
of the Jaccard similarity between the user token set and the normalized
pattern token set (maximum of an empty pattern list taken as `0`). -/
def specIntentScore (nlp : Option NormFn) (user : Finset String)
    (intent : Intent) : ℚ :=
  (intent.patterns.map (fun p => jaccard user (preprocess nlp p))).foldl max 0

/-- The best score over the whole catalog. -/
def maxScore (nlp : Option NormFn) (user : Finset String)
    (intents : List Intent) : ℚ :=
  (intents.map (intentScore nlp user)).foldl max 0

/-- A concrete normalizer used to exercise the definitions on closed
inputs: a finite lookup table standing in for the external NLP capability
(empty token set on empty or pure stop-word input, content lemmas
otherwise). -/
def demoNorm : NormFn := fun s =>
  if s = "what are your hours" then {"hour"}
  else if s = "when are you open" then {"open"}
  else if s = "what time do you open" then {"time", "open"}
  else if s = "open" then {"open"}
  else if s = "a" then {"a"}
  else if s = "a b c d" then {"a", "b", "c", "d"}
  else if s = "hi" then {"hi"}
  else if s = "hello" then {"hello"}
  else if s = "zzzz" then {"zzzz"}
  else ∅

/-- A tiny catalog with a fallback intent, for closed-input checks. -/
def demoCatalog : List Intent :=
  [ { tag := "hours"
    , patterns := ["what are your hours", "when are you open"]
    , responses := ["We are open 9 to 5."] }
  , { tag := "fallback"
    , patterns := []
    , responses := ["I'm not sure I understand."] } ]

/-- A catalog without any intent tagged `fallback`, for closed-input
checks of the implicit `None` behavior. -/
def noFallbackCatalog : List Intent :=
  [ { tag := "greeting", patterns := ["hi"], responses := ["hello"] } ]

/-- A catalog in which two intents tie for the best score, for closed-input
checks of the tie-break. -/
def tieCatalog : List Intent :=
  [ { tag := "greet1", patterns := ["hi"], responses := ["hello"] }
  , { tag := "greet2", patterns := ["hi"], responses := ["hey"] }
  , { tag := "fallback", patterns := [], responses := ["Sorry?"] } ]

example : demoNorm "when are you open" = {"open"} := by decide
example : preprocess (some demoNorm) "" = ∅ := by decide
example : get_intent (some demoNorm) demoCatalog "" =
    some { tag := "fallback", patterns := [], responses := ["I'm not sure I understand."] } := by
  decide

/-! ### General lemmas about folded maxima -/

lemma le_foldl_max (l : List ℚ) : ∀ b : ℚ, b ≤ l.foldl max b := by
  induction l with
  | nil => intro b; exact le_refl b
  | cons x xs ih =>
    intro b
    exact le_trans (le_max_left b x) (ih (max b x))

lemma foldl_max_eq_or_mem (l : List ℚ) : ∀ b : ℚ, l.foldl max b = b ∨ l.foldl max b ∈ l := by
  induction l with
  | nil => intro b; exact Or.inl rfl
  | cons x xs ih =>
    intro b
    rcases ih (max b x) with h | h
    · rcases le_total x b with hxb | hxb
      · exact Or.inl (by rw [List.foldl_cons, h, max_eq_left hxb])
      · exact Or.inr (by rw [List.foldl_cons, h, max_eq_right hxb]; exact List.mem_cons_self x xs)
    · exact Or.inr (List.mem_cons_of_mem x h)

/-! ### The inner pattern loop computes the maximal Jaccard similarity -/

lemma jaccard_nonneg (a b : Finset String) : 0 ≤ jaccard a b := by
  unfold jaccard
  split
  · exact le_refl 0
  · exact div_nonneg (Nat.cast_nonneg _) (Nat.cast_nonneg _)

lemma jaccard_empty_right (a : Finset String) (ha : a ≠ ∅) : jaccard a ∅ = 0 := by
  unfold jaccard
  rw [if_neg (by rw [Finset.union_empty]; exact ha)]
  rw [Finset.inter_empty]
  simp only [Finset.card_empty, Nat.cast_zero, zero_div]

lemma jaccard_eq_div (a b : Finset String) (hb : a ∪ b ≠ ∅) :
    jaccard a b = ((a ∩ b).card : ℚ) / ((a ∪ b).card : ℚ) := by
  unfold jaccard
  rw [if_neg hb]

lemma patternStep_eq_max (nlp : Option NormFn) (user : Finset String)
    (hu : user ≠ ∅) (acc : ℚ) (hacc : 0 ≤ acc) (p : String) :
    patternStep nlp user acc p = max acc (jaccard user (preprocess nlp p)) := by
  unfold patternStep
  dsimp only
  by_cases hpk : preprocess nlp p = ∅
  · rw [if_pos hpk, hpk, jaccard_empty_right user hu]
    exact (max_eq_left hacc).symm
  · have hune : user ∪ preprocess nlp p ≠ ∅ := by
      intro h
      exact hpk (Finset.union_eq_empty.mp h).2
    have hcard : (0:ℚ) < ((user ∪ preprocess nlp p).card : ℚ) := by
      have : 0 < (user ∪ preprocess nlp p).card :=
        Finset.card_pos.mpr (Finset.nonempty_iff_ne_empty.mpr hune)
      exact_mod_cast this
    rw [if_neg hpk, if_pos hcard, jaccard_eq_div user _ hune]
    rcases le_or_lt (((user ∩ preprocess nlp p).card : ℚ) / ((user ∪ preprocess nlp p).card : ℚ)) acc with h | h
    · rw [if_neg (not_lt.mpr h), max_eq_left h]
    · rw [if_pos h, max_eq_right h.le]

lemma foldl_patternStep (nlp : Option NormFn) (user : Finset String)
    (hu : user ≠ ∅) :
    ∀ (ps : List String) (acc : ℚ), 0 ≤ acc →
      ps.foldl (patternStep nlp user) acc =
        ps.foldl (fun a p => max a (jaccard user (preprocess nlp p))) acc := by
  intro ps
  induction ps with
  | nil => intro acc _; rfl
  | cons p ps ih =>
    intro acc hacc
    rw [List.foldl_cons, List.foldl_cons, patternStep_eq_max nlp user hu acc hacc p]
    exact ih _ (le_trans hacc (le_max_left _ _))

/-! ### The outer intent loop tracks the maximal score and its first witness -/

lemma bestStep_apply (nlp : Option NormFn) (user : Finset String)
    (b : ℚ) (oi : Option Intent) (x : Intent) :
    bestStep nlp user (b, oi) x =
      if b < intentScore nlp user x then (intentScore nlp user x, some x) else (b, oi) :=
  rfl

lemma foldl_bestStep_fst (nlp : Option NormFn) (user : Finset String) :
    ∀ (l : List Intent) (b : ℚ) (oi : Option Intent),
      (l.foldl (bestStep nlp user) (b, oi)).1 =
        (l.map (intentScore nlp user)).foldl max b := by
  intro l
  induction l with
  | nil => intro b oi; rfl
  | cons x xs ih =>
    intro b oi
    rw [List.foldl_cons, List.map_cons, List.foldl_cons, bestStep_apply]
    by_cases h : b < intentScore nlp user x
    · rw [if_pos h, ih, max_eq_right h.le]
    · rw [if_neg h, ih, max_eq_left (not_lt.mp h)]

lemma foldl_bestStep_snd_stay (nlp : Option NormFn) (user : Finset String) :
    ∀ (l : List Intent) (b : ℚ) (oi : Option Intent),
      (l.map (intentScore nlp user)).foldl max b = b →
      (l.foldl (bestStep nlp user) (b, oi)).2 = oi := by
  intro l
  induction l with
  | nil => intro b oi _; rfl
  | cons x xs ih =>
    intro b oi h
    rw [List.map_cons, List.foldl_cons] at h
    have hmaxle : max b (intentScore nlp user x) ≤ b := by
      calc max b (intentScore nlp user x)
          ≤ (xs.map (intentScore nlp user)).foldl max (max b (intentScore nlp user x)) :=
            le_foldl_max _ _
        _ = b := h
    have hxb : intentScore nlp user x ≤ b := le_trans (le_max_right _ _) hmaxle
    have hmax : max b (intentScore nlp user x) = b := max_eq_left hxb
    rw [List.foldl_cons, bestStep_apply, if_neg (not_lt.mpr hxb)]
    exact ih b oi (by rw [hmax] at h; exact h)

lemma foldl_bestStep_snd (nlp : Option NormFn) (user : Finset String) :
    ∀ (l : List Intent) (b : ℚ) (oi : Option Intent),
      b < (l.map (intentScore nlp user)).foldl max b →
      (l.foldl (bestStep nlp user) (b, oi)).2 =
        l.find? (fun x => decide (intentScore nlp user x =
          (l.map (intentScore nlp user)).foldl max b)) := by
  intro l
  induction l with
  | nil => intro b oi h; exact absurd h (lt_irrefl b)
  | cons x xs ih =>
    intro b oi h
    rw [List.map_cons, List.foldl_cons] at h ⊢
    rw [List.foldl_cons, bestStep_apply]
    by_cases hsb : b < intentScore nlp user x
    · have hmax : max b (intentScore nlp user x) = intentScore nlp user x :=
        max_eq_right hsb.le
      rw [if_pos hsb]
      rw [hmax] at h ⊢
      by_cases hM : intentScore nlp user x <
          (xs.map (intentScore nlp user)).foldl max (intentScore nlp user x)
      · rw [ih (intentScore nlp user x) (some x) hM]
        rw [List.find?_cons_of_neg _ (by
          simp only [decide_eq_true_eq]
          exact ne_of_lt hM)]
      · have hM' : (xs.map (intentScore nlp user)).foldl max (intentScore nlp user x) =
            intentScore nlp user x :=
          le_antisymm (not_lt.mp hM) (le_foldl_max _ _)
        rw [foldl_bestStep_snd_stay nlp user xs _ (some x) hM']
        rw [List.find?_cons_of_pos _ (by
          simp only [decide_eq_true_eq]
          exact hM'.symm)]
    · have hxb : intentScore nlp user x ≤ b := not_lt.mp hsb
      have hmax : max b (intentScore nlp user x) = b := max_eq_left hxb
      rw [if_neg hsb]
      rw [hmax] at h ⊢
      rw [ih b oi h]
      rw [List.find?_cons_of_neg _ (by
        simp only [decide_eq_true_eq]
        exact ne_of_lt (lt_of_le_of_lt hxb h))]

lemma bestMatch_fst (nlp : Option NormFn) (user : Finset String)
    (intents : List Intent) :
    (bestMatch nlp user intents).1 = maxScore nlp user intents :=
  foldl_bestStep_fst nlp user intents 0 none

lemma bestMatch_snd (nlp : Option NormFn) (user : Finset String)
    (intents : List Intent) (h : 0 < maxScore nlp user intents) :
    (bestMatch nlp user intents).2 =
      intents.find? (fun i => decide (intentScore nlp user i = maxScore nlp user intents)) :=
  foldl_bestStep_snd nlp user intents 0 none h

lemma maxScore_attained (nlp : Option NormFn) (user : Finset String)
    (intents : List Intent) (h : 0 < maxScore nlp user intents) :
    ∃ i ∈ intents, intentScore nlp user i = maxScore nlp user intents := by
  rcases foldl_max_eq_or_mem (intents.map (intentScore nlp user)) 0 with h0 | hmem
  · exact absurd (h0 : maxScore nlp user intents = 0) (ne_of_gt h)
  · rcases List.mem_map.mp hmem with ⟨i, hi, hscore⟩
    exact ⟨i, hi, hscore⟩

/-- Evaluation helper: one step of the pattern loop at concrete cardinalities. -/
lemma patternStep_eval (nlp : Option NormFn) (user : Finset String) (acc : ℚ)
    (p : String) (pk : Finset String) (hp : preprocess nlp p = pk) (hpk : pk ≠ ∅)
    (i u : ℕ) (hi : (user ∩ pk).card = i) (hcu : (user ∪ pk).card = u) (hu0 : 0 < u) :
    patternStep nlp user acc p = if (i:ℚ)/(u:ℚ) > acc then (i:ℚ)/(u:ℚ) else acc := by
  have hq : ((u:ℕ):ℚ) > 0 := by exact_mod_cast hu0
  unfold patternStep
  dsimp only
  rw [hp, if_neg hpk, hi, hcu, if_pos hq]

/-! ### C1 — the per-intent score is the maximal Jaccard similarity -/

/-- C1: for every catalog intent and every input text whose normalization
yields a non-empty token set, the per-intent score computed by the inner
loop of `get_intent` equals the maximum, over the intent's patterns, of the
Jaccard similarity between the user token set and the normalized pattern
token set, with the similarity taken as `0` when the union is empty. -/
theorem intent_score_is_max_jaccard (nlp : Option NormFn) (msg : String)
    (i : Intent) (hu : preprocess nlp msg ≠ ∅) :
    intentScore nlp (preprocess nlp msg) i =
      specIntentScore nlp (preprocess nlp msg) i := by
  unfold intentScore specIntentScore
  rw [List.foldl_map]
  exact foldl_patternStep nlp _ hu i.patterns 0 le_rfl

/-- Witness for C1 at a concrete normalizer, input and intent. -/
theorem intent_score_is_max_jaccard_witness :
    preprocess (some demoNorm) "hi" ≠ ∅ ∧
    intentScore (some demoNorm) (preprocess (some demoNorm) "hi")
        { tag := "greet1", patterns := ["hi"], responses := ["hello"] } =
      specIntentScore (some demoNorm) (preprocess (some demoNorm) "hi")
        { tag := "greet1", patterns := ["hi"], responses := ["hello"] } :=
  ⟨by decide, intent_score_is_max_jaccard (some demoNorm) "hi"
    { tag := "greet1", patterns := ["hi"], responses := ["hello"] } (by decide)⟩

/-! ### C2 — inclusive 0.25 threshold between best match and fallback -/

/-- C2: with a fallback intent in the catalog and a non-empty user token
set, `get_intent` returns an intent achieving the best catalog score
whenever that score is at least the inclusive threshold `0.25`, and returns
the first intent tagged `fallback` whenever the best score is strictly
below `0.25`. -/
theorem get_intent_threshold (nlp : Option NormFn) (intents : List Intent)
    (msg : String) (hu : preprocess nlp msg ≠ ∅) (fb : Intent)
    (hfb : findFallback intents = some fb) :
    (CONFIDENCE_THRESHOLD ≤ maxScore nlp (preprocess nlp msg) intents ∧
      ∃ i, get_intent nlp intents msg = some i ∧ i ∈ intents ∧
        intentScore nlp (preprocess nlp msg) i =
          maxScore nlp (preprocess nlp msg) intents) ∨
    (maxScore nlp (preprocess nlp msg) intents < CONFIDENCE_THRESHOLD ∧
      get_intent nlp intents msg = some fb) := by
  have hne : intents ≠ [] := by
    intro h
    rw [h] at hfb
    exact Option.noConfusion hfb
  rcases le_or_lt CONFIDENCE_THRESHOLD (maxScore nlp (preprocess nlp msg) intents) with hth | hth
  · left
    refine ⟨hth, ?_⟩
    have hpos : 0 < maxScore nlp (preprocess nlp msg) intents :=
      lt_of_lt_of_le (by norm_num [CONFIDENCE_THRESHOLD]) hth
    have hres : get_intent nlp intents msg =
        intents.find? (fun i => decide (intentScore nlp (preprocess nlp msg) i =
          maxScore nlp (preprocess nlp msg) intents)) := by
      unfold get_intent
      rw [if_neg hne]
      dsimp only
      rw [if_neg hu, if_pos (by rw [bestMatch_fst]; exact hth),
        bestMatch_snd _ _ _ hpos]
    obtain ⟨i0, hi0mem, hi0sc⟩ := maxScore_attained nlp _ intents hpos
    have hsome : (intents.find? (fun i => decide (intentScore nlp (preprocess nlp msg) i =
        maxScore nlp (preprocess nlp msg) intents))).isSome :=
      List.find?_isSome.mpr ⟨i0, hi0mem, by simp only [decide_eq_true_eq]; exact hi0sc⟩
    obtain ⟨j, hj⟩ := Option.isSome_iff_exists.mp hsome
    refine ⟨j, by rw [hres, hj], List.mem_of_find?_eq_some hj, ?_⟩
    have hpj := List.find?_some hj
    simpa only [decide_eq_true_eq] using hpj
  · right
    refine ⟨hth, ?_⟩
    unfold get_intent
    rw [if_neg hne]
    dsimp only
    rw [if_neg hu, if_neg (by rw [bestMatch_fst]; exact not_le.mpr hth), hfb]

/-- Witness for C2 at a concrete catalog and input. -/
theorem get_intent_threshold_witness :
    (preprocess (some demoNorm) "what time do you open" ≠ ∅ ∧
      findFallback demoCatalog =
        some { tag := "fallback", patterns := [], responses := ["I'm not sure I understand."] }) ∧
    ((CONFIDENCE_THRESHOLD ≤
        maxScore (some demoNorm) (preprocess (some demoNorm) "what time do you open") demoCatalog ∧
      ∃ i, get_intent (some demoNorm) demoCatalog "what time do you open" = some i ∧
        i ∈ demoCatalog ∧
        intentScore (some demoNorm) (preprocess (some demoNorm) "what time do you open") i =
          maxScore (some demoNorm) (preprocess (some demoNorm) "what time do you open") demoCatalog) ∨
    (maxScore (some demoNorm) (preprocess (some demoNorm) "what time do you open") demoCatalog <
        CONFIDENCE_THRESHOLD ∧
      get_intent (some demoNorm) demoCatalog "what time do you open" =
        some { tag := "fallback", patterns := [], responses := ["I'm not sure I understand."] })) :=
  ⟨⟨by decide, by decide⟩,
    get_intent_threshold (some demoNorm) demoCatalog "what time do you open" (by decide)
      { tag := "fallback", patterns := [], responses := ["I'm not sure I understand."] }
      (by decide)⟩

/-! ### C3 — ties are broken by catalog order -/

/-- C3: when the best score clears the threshold, `get_intent` returns the
earliest intent in catalog order whose score equals the best score; in
particular, on exact ties the intent appearing first in the catalog wins,
because the running best is replaced only on a strictly greater score. -/
theorem get_intent_tie_break (nlp : Option NormFn) (intents : List Intent)
    (msg : String) (hu : preprocess nlp msg ≠ ∅) (hne : intents ≠ [])
    (hth : CONFIDENCE_THRESHOLD ≤ maxScore nlp (preprocess nlp msg) intents) :
    get_intent nlp intents msg =
      intents.find? (fun i => decide (intentScore nlp (preprocess nlp msg) i =
        maxScore nlp (preprocess nlp msg) intents)) := by
  have hpos : 0 < maxScore nlp (preprocess nlp msg) intents :=
    lt_of_lt_of_le (by norm_num [CONFIDENCE_THRESHOLD]) hth
  unfold get_intent
  rw [if_neg hne]
  dsimp only
  rw [if_neg hu, if_pos (by rw [bestMatch_fst]; exact hth), bestMatch_snd _ _ _ hpos]

/-- Evaluation helper: on `tieCatalog` the two greeting intents tie at
score `1` and the best score is `1`. -/
lemma maxScore_tieCatalog :
    maxScore (some demoNorm) (preprocess (some demoNorm) "hi") tieCatalog = 1 := by
  have hpre : preprocess (some demoNorm) "hi" = {"hi"} := by decide
  have hs1 : intentScore (some demoNorm) ({"hi"} : Finset String)
      { tag := "greet1", patterns := ["hi"], responses := ["hello"] } = 1 := by
    unfold intentScore
    simp only [List.foldl_cons, List.foldl_nil]
    rw [patternStep_eval (some demoNorm) {"hi"} 0 "hi" {"hi"} (by decide) (by decide)
      1 1 (by decide) (by decide) (by norm_num)]
    rw [if_pos (by norm_num : (((1:ℕ):ℚ)/((1:ℕ):ℚ) > 0))]
    norm_num
  have hs2 : intentScore (some demoNorm) ({"hi"} : Finset String)
      { tag := "greet2", patterns := ["hi"], responses := ["hey"] } = 1 := by
    unfold intentScore
    simp only [List.foldl_cons, List.foldl_nil]
    rw [patternStep_eval (some demoNorm) {"hi"} 0 "hi" {"hi"} (by decide) (by decide)
      1 1 (by decide) (by decide) (by norm_num)]
    rw [if_pos (by norm_num : (((1:ℕ):ℚ)/((1:ℕ):ℚ) > 0))]
    norm_num
  have hs3 : intentScore (some demoNorm) ({"hi"} : Finset String)
      { tag := "fallback", patterns := [], responses := ["Sorry?"] } = 0 := rfl
  rw [hpre]
  unfold maxScore tieCatalog
  simp only [List.map_cons, List.map_nil, List.foldl_cons, List.foldl_nil]
  rw [hs1, hs2, hs3]
  rw [max_eq_right (by norm_num : (0:ℚ) ≤ 1), max_self,
    max_eq_left (by norm_num : (0:ℚ) ≤ 1)]

/-- Witness for C3 on a catalog whose first two intents tie at the best
score. -/
theorem get_intent_tie_break_witness :
    (preprocess (some demoNorm) "hi" ≠ ∅ ∧ tieCatalog ≠ [] ∧
      CONFIDENCE_THRESHOLD ≤
        maxScore (some demoNorm) (preprocess (some demoNorm) "hi") tieCatalog) ∧
    get_intent (some demoNorm) tieCatalog "hi" =
      tieCatalog.find? (fun i => decide (intentScore (some demoNorm)
        (preprocess (some demoNorm) "hi") i =
          maxScore (some demoNorm) (preprocess (some demoNorm) "hi") tieCatalog)) :=
  ⟨⟨by decide, by decide, by rw [maxScore_tieCatalog]; norm_num [CONFIDENCE_THRESHOLD]⟩,
    get_intent_tie_break (some demoNorm) tieCatalog "hi" (by decide) (by decide)
      (by rw [maxScore_tieCatalog]; norm_num [CONFIDENCE_THRESHOLD])⟩

/-! ### C4 — empty token set routes to the fallback lookup -/

/-- Counterexample to C4 as stated: on a non-empty catalog that contains no
intent tagged `fallback`, an input normalizing to the empty token set makes
`get_intent` return `none`, not a fallback-tagged intent — so the claim
does not hold regardless of catalog contents. -/
theorem get_intent_empty_counterexample :
    preprocess (some demoNorm) "" = ∅ ∧ noFallbackCatalog ≠ [] ∧
    ¬ ∃ i, get_intent (some demoNorm) noFallbackCatalog "" = some i ∧
      i.tag = "fallback" := by
  have h0 : get_intent (some demoNorm) noFallbackCatalog "" = none := by decide
  refine ⟨by decide, by decide, ?_⟩
  rintro ⟨i, hi, -⟩
  rw [h0] at hi
  exact Option.noConfusion hi

/-- C4 (amended): for every input whose normalization yields an empty token
set — including the empty string, pure stop-words, and an unavailable
normalization capability — `get_intent` performs no scoring and returns the
first intent tagged `fallback`; when the catalog is empty or has no such
intent, it returns `none` instead. -/
theorem get_intent_empty_tokens (nlp : Option NormFn) (intents : List Intent)
    (msg : String) (hu : preprocess nlp msg = ∅) :
    get_intent nlp intents msg =
      if intents = [] then none else findFallback intents := by
  by_cases hne : intents = []
  · rw [if_pos hne, hne]
    rfl
  · rw [if_neg hne]
    unfold get_intent
    rw [if_neg hne]
    dsimp only
    rw [if_pos hu]

/-- Witness for C4 (amended) at an empty-string input and a catalog with a
fallback intent. -/
theorem get_intent_empty_tokens_witness :
    preprocess (some demoNorm) "" = ∅ ∧
    get_intent (some demoNorm) demoCatalog "" =
      if demoCatalog = [] then none else findFallback demoCatalog :=
  ⟨by decide, get_intent_empty_tokens (some demoNorm) demoCatalog "" (by decide)⟩

/-! ### C5 — totality: with a fallback intent present, some intent is
always returned -/

/-- C5: whenever the catalog contains an intent tagged `fallback`,
`get_intent` returns some intent for every input text (the embedding is a
total function, so no exception can be raised; this theorem rules out the
`None` result as well). -/
theorem get_intent_total (nlp : Option NormFn) (intents : List Intent)
    (msg : String) (fb : Intent) (hfb : findFallback intents = some fb) :
    (get_intent nlp intents msg).isSome = true := by
  have hne : intents ≠ [] := by
    intro h
    rw [h] at hfb
    exact Option.noConfusion hfb
  by_cases hu : preprocess nlp msg = ∅
  · unfold get_intent
    rw [if_neg hne]
    dsimp only
    rw [if_pos hu, hfb]
    rfl
  · by_cases hth : CONFIDENCE_THRESHOLD ≤ maxScore nlp (preprocess nlp msg) intents
    · have hpos : 0 < maxScore nlp (preprocess nlp msg) intents :=
        lt_of_lt_of_le (by norm_num [CONFIDENCE_THRESHOLD]) hth
      obtain ⟨i0, hi0mem, hi0sc⟩ := maxScore_attained nlp _ intents hpos
      unfold get_intent
      rw [if_neg hne]
      dsimp only
      rw [if_neg hu, if_pos (by rw [bestMatch_fst]; exact hth),
        bestMatch_snd _ _ _ hpos]
      exact List.find?_isSome.mpr
        ⟨i0, hi0mem, by simp only [decide_eq_true_eq]; exact hi0sc⟩
    · unfold get_intent
      rw [if_neg hne]
      dsimp only
      rw [if_neg hu, if_neg (by rw [bestMatch_fst]; exact hth), hfb]
      rfl

/-- Witness for C5 at a concrete catalog and input. -/
theorem get_intent_total_witness :
    findFallback demoCatalog =
      some { tag := "fallback", patterns := [], responses := ["I'm not sure I understand."] } ∧
    (get_intent (some demoNorm) demoCatalog "zzzz").isSome = true :=
  ⟨by decide, get_intent_total (some demoNorm) demoCatalog "zzzz"
    { tag := "fallback", patterns := [], responses := ["I'm not sure I understand."] }
    (by decide)⟩

/-! ### C6 — catalog load failure is swallowed, not propagated -/

/-- Counterexample to C6 as stated: with both the NLP model load and the
intents-file load failing, `__init__` completes normally (its embedding is
a total function into `EngineState`, not into an error type), the failure
is not propagated, and the engine ends up with an accepted empty catalog on
which `get_intent` quietly returns `none`. -/
theorem initEngine_failure_counterexample :
    (initEngine (Except.error "missing intents file")
      (Except.error "missing intents file")).intents = [] ∧
    get_intent
      (initEngine (Except.error "missing intents file")
        (Except.error "missing intents file")).nlp
      (initEngine (Except.error "missing intents file")
        (Except.error "missing intents file")).intents "hello" = none :=
  ⟨rfl, rfl⟩

/-- C6 (amended): when loading the NLP model or the catalog source fails,
`__init__` swallows the failure and initializes the engine with no NLP
capability and an empty catalog; nothing is propagated to the caller, and
every subsequent `get_intent` call returns `none`. -/
theorem initEngine_swallows_failure (loadNlp : Except String NormFn)
    (loadIntents : Except String (List Intent))
    (h : (∃ e, loadNlp = Except.error e) ∨ (∃ e, loadIntents = Except.error e))
    (msg : String) :
    initEngine loadNlp loadIntents = { nlp := none, intents := [] } ∧
    get_intent (initEngine loadNlp loadIntents).nlp
      (initEngine loadNlp loadIntents).intents msg = none := by
  have heng : initEngine loadNlp loadIntents = { nlp := none, intents := [] } := by
    rcases h with ⟨e, he⟩ | ⟨e, he⟩
    · rw [he]
      cases loadIntents <;> rfl
    · rw [he]
      cases loadNlp <;> rfl
  refine ⟨heng, ?_⟩
  rw [heng]
  rfl

/-- Witness for C6 (amended) at a concrete failing load. -/
theorem initEngine_swallows_failure_witness :
    initEngine (Except.error "spacy model missing" : Except String NormFn)
        (Except.error "intents.json missing") = { nlp := none, intents := [] } ∧
    get_intent
      (initEngine (Except.error "spacy model missing" : Except String NormFn)
        (Except.error "intents.json missing")).nlp
      (initEngine (Except.error "spacy model missing" : Except String NormFn)
        (Except.error "intents.json missing")).intents "hello" = none :=
  initEngine_swallows_failure (Except.error "spacy model missing")
    (Except.error "intents.json missing")
    (Or.inl ⟨"spacy model missing", rfl⟩) "hello"

/-! ### C7 — response selection: apology on absent or empty, member
otherwise -/

/-- C7: `get_response` returns the hard-coded apology when the intent is
absent or its response list is empty, and otherwise returns an element of
the intent's response list; the embedding is total, so it never raises. -/
theorem get_response_spec (i : Intent) (k : Nat) (hne : i.responses ≠ []) :
    get_response none k = apologyMessage ∧
    get_response (some { i with responses := [] }) k = apologyMessage ∧
    get_response (some i) k ∈ i.responses := by
  refine ⟨rfl, rfl, ?_⟩
  unfold get_response
  dsimp only
  rw [if_neg hne]
  have hlt : k % i.responses.length < i.responses.length :=
    Nat.mod_lt _ (List.length_pos.mpr hne)
  rw [List.getD_eq_getElem?_getD, List.getElem?_eq_getElem hlt]
  exact List.getElem_mem _

/-- Witness for C7 at a concrete intent with a non-empty response list. -/
theorem get_response_spec_witness :
    (["hello"] : List String) ≠ [] ∧
    (get_response none 0 = apologyMessage ∧
     get_response (some { tag := "greeting", patterns := ["hi"], responses := [] }) 0 =
       apologyMessage ∧
     get_response (some { tag := "greeting", patterns := ["hi"], responses := ["hello"] }) 0 ∈
       (["hello"] : List String)) :=
  ⟨by decide, get_response_spec
    { tag := "greeting", patterns := ["hi"], responses := ["hello"] } 0 (by decide)⟩

/-! ### C8 — classification is deterministic -/

/-- C8: classification is a pure function of the catalog, the normalization
capability and the input text: two runs of `get_intent` with pointwise-equal
normalization functions on the same catalog and input return the same
intent (there is no hidden state or randomness in scoring). -/
theorem get_intent_deterministic (f g : NormFn) (h : ∀ s, f s = g s)
    (intents : List Intent) (msg : String) :
    get_intent (some f) intents msg = get_intent (some g) intents msg := by
  have hfg : f = g := funext h
  rw [hfg]

/-- Witness for C8: two runs on the same concrete inputs agree. -/
theorem get_intent_deterministic_witness :
    get_intent (some demoNorm) demoCatalog "hi" =
      get_intent (some demoNorm) demoCatalog "hi" :=
  get_intent_deterministic demoNorm demoNorm (fun _ => rfl) demoCatalog "hi"

/-! ### C9 — neither operation mutates the catalog -/

/-- C9: the state-transformer embeddings of `get_intent` and `get_response`
return the engine state unchanged: the catalog (tags, patterns and
responses of every intent) is identical before and after each call. -/
theorem engine_state_unchanged (s : EngineState) (msg : String)
    (oi : Option Intent) (k : Nat) :
    (get_intent_s s msg).2 = s ∧
    (get_intent_s s msg).2.intents = s.intents ∧
    (get_response_s s oi k).2 = s ∧
    (get_response_s s oi k).2.intents = s.intents :=
  ⟨rfl, rfl, rfl, rfl⟩

/-! ### C10 — observable `None` results at the public interface -/

/-- Evaluation helper: against the fallback-less demo catalog, the input
normalizing to an unrelated singleton token set scores `0`. -/
lemma maxScore_noFallbackCatalog :
    maxScore (some demoNorm) (preprocess (some demoNorm) "zzzz")
      noFallbackCatalog = 0 := by
  have hpre : preprocess (some demoNorm) "zzzz" = {"zzzz"} := by decide
  have hs1 : intentScore (some demoNorm) ({"zzzz"} : Finset String)
      { tag := "greeting", patterns := ["hi"], responses := ["hello"] } = 0 := by
    unfold intentScore
    simp only [List.foldl_cons, List.foldl_nil]
    rw [patternStep_eval (some demoNorm) {"zzzz"} 0 "hi" {"hi"} (by decide) (by decide)
      0 2 (by decide) (by decide) (by norm_num)]
    rw [if_neg (by norm_num : ¬ (((0:ℕ):ℚ)/((2:ℕ):ℚ) > 0))]
  rw [hpre]
  unfold maxScore noFallbackCatalog
  simp only [List.map_cons, List.map_nil, List.foldl_cons, List.foldl_nil]
  rw [hs1, max_self]

/-- C10: when the catalog is empty, and when the fallback path is taken
(empty user token set, or best score below the threshold) but the catalog
contains no intent tagged `fallback`, `get_intent` returns `none`, so
callers observe an absent result at the public interface. -/
theorem get_intent_none_cases (nlp : Option NormFn) (intents : List Intent)
    (msg msg2 : String) (hnf : findFallback intents = none)
    (hu : preprocess nlp msg = ∅) (hu2 : preprocess nlp msg2 ≠ ∅)
    (hlow : maxScore nlp (preprocess nlp msg2) intents < CONFIDENCE_THRESHOLD) :
    get_intent nlp [] msg = none ∧
    get_intent nlp intents msg = none ∧
    get_intent nlp intents msg2 = none := by
  refine ⟨rfl, ?_, ?_⟩
  · by_cases hne : intents = []
    · rw [hne]
      rfl
    · unfold get_intent
      rw [if_neg hne]
      dsimp only
      rw [if_pos hu, hnf]
  · by_cases hne : intents = []
    · rw [hne]
      rfl
    · unfold get_intent
      rw [if_neg hne]
      dsimp only
      rw [if_neg hu2, if_neg (by rw [bestMatch_fst]; exact not_le.mpr hlow), hnf]

/-- Witness for C10 on a non-empty catalog without a fallback intent, an
empty-token input and a below-threshold input. -/
theorem get_intent_none_cases_witness :
    (findFallback noFallbackCatalog = none ∧
      preprocess (some demoNorm) "" = ∅ ∧
      preprocess (some demoNorm) "zzzz" ≠ ∅ ∧
      maxScore (some demoNorm) (preprocess (some demoNorm) "zzzz") noFallbackCatalog <
        CONFIDENCE_THRESHOLD) ∧
    (get_intent (some demoNorm) [] "" = none ∧
      get_intent (some demoNorm) noFallbackCatalog "" = none ∧
      get_intent (some demoNorm) noFallbackCatalog "zzzz" = none) :=
  ⟨⟨by decide, by decide, by decide,
      by rw [maxScore_noFallbackCatalog]; norm_num [CONFIDENCE_THRESHOLD]⟩,
    get_intent_none_cases (some demoNorm) noFallbackCatalog "" "zzzz" (by decide)
      (by decide) (by decide)
      (by rw [maxScore_noFallbackCatalog]; norm_num [CONFIDENCE_THRESHOLD])⟩

end HumongousAI
